import Mathlib

/-!
Verification of the quEDU tomography experiment driver (src/files/tom.py).

The development shallowly embeds the parts of the program the claims are
about:

* the per-channel latch written by the asynchronous data callback and
  drained by the acquisition loops of the two experiment variants
  (quEDU_Logic.data_callback, DoubleQubit.measure_position,
  SingleQubit.measure_position);
* the motor move-and-wait routine (BaseQubit._move_motors_to_targets)
  together with the degree-to-step conversion (BaseQubit._angle_to_steps,
  DEG_TO_STEP);
* the state-reconstruction routines (DoubleQubit.calc_results,
  SingleQubit.calc_results), with exact rational arithmetic in place of
  floating point and with complex numbers represented as pairs of
  rationals.

Python exceptions are modelled with Except: float division by zero raises
ZeroDivisionError, and the explicit raise in DoubleQubit.calc_results
raises ValueError.
-/

/-- Complex numbers with rational parts, the value domain of the numpy
complex matrices in tom.py (exact arithmetic in place of floats). -/
structure CQ where
  re : ℚ
  im : ℚ
deriving DecidableEq, Repr

instance : Zero CQ := ⟨⟨0, 0⟩⟩

instance : Add CQ := ⟨fun a b => ⟨a.re + b.re, a.im + b.im⟩⟩

instance : Sub CQ := ⟨fun a b => ⟨a.re - b.re, a.im - b.im⟩⟩

instance : Mul CQ := ⟨fun a b => ⟨a.re * b.re - a.im * b.im, a.re * b.im + a.im * b.re⟩⟩

/-- Embedding of a real (rational) scalar into CQ. -/
def CQ.oq (x : ℚ) : CQ := ⟨x, 0⟩

/-- The imaginary unit, Python's 1j. -/
def CQ.ju : CQ := ⟨0, 1⟩

/-- Complex conjugation, numpy's conj. -/
def CQ.conj (z : CQ) : CQ := ⟨z.re, -z.im⟩

/-- Squared modulus of a complex number.  tom.py compares np.abs values;
we work with the square, which is zero or positive exactly when the
modulus is, and stays inside ℚ. -/
def CQ.normSq (z : CQ) : ℚ := z.re ^ 2 + z.im ^ 2

/-- A 2 by 2 complex matrix (single-qubit density matrix). -/
abbrev Mat2 := Fin 2 → Fin 2 → CQ

/-- A 4 by 4 complex matrix (two-qubit density matrix). -/
abbrev Mat4 := Fin 4 → Fin 4 → CQ

def madd2 (a b : Mat2) : Mat2 := fun i j => a i j + b i j

def msmul2 (c : CQ) (a : Mat2) : Mat2 := fun i j => c * a i j

def mmul2 (a b : Mat2) : Mat2 := fun i j =>
  ((List.finRange 2).map (fun k => a i k * b k j)).sum

def trace2 (a : Mat2) : CQ := a 0 0 + a 1 1

def msmul4 (c : CQ) (a : Mat4) : Mat4 := fun i j => c * a i j

def mmul4 (a b : Mat4) : Mat4 := fun i j =>
  ((List.finRange 4).map (fun k => a i k * b k j)).sum

def trace4 (a : Mat4) : CQ := a 0 0 + a 1 1 + a 2 2 + a 3 3

/-- Maximum squared modulus of the entries of the difference between a
2 by 2 matrix and its conjugate transpose: the hermiticity diagnostic of
tom.py (np.max(np.abs(rho - rho.conj().T))), squared entrywise. -/
def hermSq2 (a : Mat2) : ℚ :=
  ((List.finRange 2).map (fun i =>
    ((List.finRange 2).map (fun j =>
      CQ.normSq (a i j - CQ.conj (a j i)))).foldr max 0)).foldr max 0

/-- Maximum squared modulus of the entries of the difference between a
4 by 4 matrix and its conjugate transpose. -/
def hermSq4 (a : Mat4) : ℚ :=
  ((List.finRange 4).map (fun i =>
    ((List.finRange 4).map (fun j =>
      CQ.normSq (a i j - CQ.conj (a j i)))).foldr max 0)).foldr max 0

/-!
Channel latch and the acquisition loops.

The data callback (tom.py lines 83-93) overwrites one of the three
per-channel slots _current_ch1, _current_ch2, _current_coinc with the
latest sample.  DoubleQubit.measure_position (lines 253-264) and
SingleQubit.measure_position (lines 417-424) poll the slots, append the
read values to the per-position series and reset slots to None.

A sample is identified by the index of its publish event, so that "the
same underlying Sample" is "the same identifier".  A loop run is driven
by a schedule: for each of the n_samples repetitions, the list of publish
events that arrive before that repetition's read takes place.  If a
repetition's wait can never end (the awaited slot stays None and no
further event arrives) the run is modelled as none, matching the
unbounded blocking of the while-loop.
-/

/-- The three data channels of the tomography experiment
(data_channel1 = 9, data_channel2 = 10, data_coinc = 8). -/
inductive Chan where
  | ch1
  | ch2
  | coinc
deriving DecidableEq, Repr

/-- A publish event: the data callback stores sample sid into the slot of
channel chan. -/
structure Pub where
  chan : Chan
  sid : ℕ
deriving DecidableEq, Repr

/-- The collector state: the three latch slots and the per-channel series
accumulated by the acquisition loop for the current position. -/
structure LState where
  ch1 : Option ℕ
  ch2 : Option ℕ
  coinc : Option ℕ
  acc1 : List ℕ
  acc2 : List ℕ
  accC : List ℕ
deriving DecidableEq, Repr

/-- Effect of the data callback: unconditionally overwrite the slot of the
event's channel (tom.py lines 88-93). -/
def publish (s : LState) (p : Pub) : LState :=
  match p.chan with
  | .ch1 => { s with ch1 := some p.sid }
  | .ch2 => { s with ch2 := some p.sid }
  | .coinc => { s with coinc := some p.sid }

/-- One repetition of the SingleQubit.measure_position loop body
(tom.py lines 419-424): wait until _current_ch1 is not None, append it to
the ch1 series, then set _current_ch2 (sic, the source resets the wrong
slot) to None. -/
def singleStep (s : LState) : Option LState :=
  match s.ch1 with
  | none => none
  | some v => some { s with acc1 := s.acc1 ++ [v], ch2 := none }

/-- One repetition of the DoubleQubit.measure_position loop body
(tom.py lines 255-264): wait until all three slots are filled, append all
three values, then reset all three slots to None. -/
def doubleStep (s : LState) : Option LState :=
  match s.ch1, s.ch2, s.coinc with
  | some v1, some v2, some vc =>
      some { s with
        acc1 := s.acc1 ++ [v1], acc2 := s.acc2 ++ [v2], accC := s.accC ++ [vc],
        ch1 := none, ch2 := none, coinc := none }
  | _, _, _ => none

/-- Run an acquisition loop: for each scheduled repetition, deliver that
repetition's publish events to the latch, then execute one loop body. -/
def runLoop (step : LState → Option LState) (s : LState) : List (List Pub) → Option LState
  | [] => some s
  | evs :: rest =>
    match step (evs.foldl publish s) with
    | none => none
    | some s2 => runLoop step s2 rest

/-- The single-qubit acquisition loop over a schedule. -/
def singleLoop (s : LState) (sched : List (List Pub)) : Option LState :=
  runLoop singleStep s sched

/-- The two-qubit acquisition loop over a schedule. -/
def doubleLoop (s : LState) (sched : List (List Pub)) : Option LState :=
  runLoop doubleStep s sched

/-- Collector state at construction: all slots empty, no samples
(BaseQubit.__init__, tom.py lines 116-119). -/
def initLatch : LState := ⟨none, none, none, [], [], []⟩

/-!
Motor synchronisation (BaseQubit._move_motors_to_targets, tom.py lines
127-174).  Polling time is discretised into ticks of one sleep interval;
a position oracle gives each motor's reported position at each tick, and
the timeout is a fuel bound on the number of polling iterations.
-/

/-- One pass of the settling poll (tom.py lines 149-159): every motor not
yet marked done is read, and marked done when its reported position is
within 1 step of its target. -/
def settleStep (pos : ℕ → ℕ → ℤ) (targets : List (ℕ × ℤ)) (t : ℕ) (d : List ℕ) : List ℕ :=
  targets.foldl
    (fun d2 p =>
      if p.1 ∈ d2 then d2
      else if |pos t p.1 - p.2| ≤ 1 then d2 ++ [p.1] else d2)
    d

/-- The bounded polling loop (tom.py lines 145-160): repeat settleStep
until either all motors are done or the fuel (timeout) runs out; returns
the exit tick and the list of settled motors. -/
def waitLoop (pos : ℕ → ℕ → ℤ) (targets : List (ℕ × ℤ)) :
    ℕ → ℕ → List ℕ → ℕ × List ℕ
  | 0, t, d => (t, d)
  | fuel + 1, t, d =>
    if ∀ p ∈ targets, p.1 ∈ d then (t, d)
    else waitLoop pos targets fuel (t + 1) (settleStep pos targets t d)

/-- Outcome of _move_motors_to_targets: the final reported position of
every motor (tom.py lines 163-171) and whether the timeout warning was
emitted (lines 173-174).  The routine returns this value normally; it
raises no exception on timeout. -/
structure MoveResult where
  reports : List (ℕ × ℤ)
  warned : Bool
deriving DecidableEq, Repr

/-- The move-and-wait routine: send all targets (a no-op towards the
oracle), poll until settled or out of fuel, report final positions for
every motor, and warn when some motor never settled. -/
def moveMotors (pos : ℕ → ℕ → ℤ) (targets : List (ℕ × ℤ)) (fuel : ℕ) : MoveResult :=
  let r := waitLoop pos targets fuel 0 []
  { reports := targets.map (fun p => (p.1, pos r.1 p.1)),
    warned := if ∀ p ∈ targets, p.1 ∈ r.2 then false else true }

/-!
Degree-to-step conversion (tom.py lines 27-28 and 124-125).
-/

/-- Steps per revolution of the quEDU motors (tom.py line 27). -/
def STEPS_PER_REV : ℚ := 4800

/-- Conversion factor from degrees to motor steps (tom.py line 28). -/
def DEG_TO_STEP : ℚ := STEPS_PER_REV / 360

/-- Python's builtin round: round half to even. -/
def pyRound (q : ℚ) : ℤ :=
  if Int.fract q = 1 / 2 then (if 2 ∣ ⌊q⌋ then ⌊q⌋ else ⌊q⌋ + 1) else round q

/-- BaseQubit._angle_to_steps (tom.py lines 124-125):
round(angle * DEG_TO_STEP). -/
def angleToSteps (angle : ℚ) : ℤ := pyRound (angle * DEG_TO_STEP)

/-!
Reconstruction input.  calc_results reads the saved csv back with pandas
and keeps, for every row whose Position is one of the experiment's
positions, the float value of its average-count column, falling back to
0.0 when the value does not parse as a float; lookups of absent positions
fall back to 0.0 (tom.py lines 300-312 and 442-453).  A row is a Position
string together with the parsed value, none standing for a cell that
float() rejects.
-/

/-- A csv data row: the Position label and the average-count cell, none
when the cell cannot be parsed as a float. -/
abbrev Row := String × Option ℚ

/-- The pos_to_coinc dictionary: iterate over the rows, keep rows whose
Position is a known position, store the parsed value or 0.0 on parse
failure; a later row for the same Position overwrites an earlier one. -/
def posToCoinc (positions : List String) (rows : List Row) : List (String × ℚ) :=
  rows.foldl (fun m r => if r.1 ∈ positions then m ++ [(r.1, r.2.getD 0)] else m) []

/-- Lookup of a key in an association list (first binding wins). -/
def assocGet : List (String × ℚ) → String → Option ℚ
  | [], _ => none
  | p :: t, k => if k = p.1 then some p.2 else assocGet t k

/-- Dictionary get with default 0.0: the value of the last stored binding
of the key, or 0.0 when the key is absent. -/
def pyGet (m : List (String × ℚ)) (k : String) : ℚ := (assocGet m.reverse k).getD 0

/-- The convenience accessor C of calc_results:
C name = pos_to_coinc.get(name, 0.0). -/
def Cfun (positions : List String) (rows : List Row) : String → ℚ :=
  pyGet (posToCoinc positions rows)

/-- ASCII lowercase of one character, as str.lower acts on the basis
letters used by tom.py. -/
def lowerChar (c : Char) : Char :=
  if 'A' ≤ c ∧ c ≤ 'Z' then Char.ofNat (c.toNat + 32) else c

/-- ASCII lowercase of a string (Python's str.lower on the basis
labels). -/
def lowerStr (s : String) : String := ⟨s.data.map lowerChar⟩

/-- The exceptions calc_results can raise: the explicit ValueError for a
zero group denominator (tom.py lines 321-324), and the ZeroDivisionError
of float division by a zero pair sum (lines 475-477). -/
inductive CalcErr where
  | valueError
  | zeroDivisionError
deriving DecidableEq, Repr

/-- Python float division: raises ZeroDivisionError when the denominator
is zero. -/
def qdiv (a b : ℚ) : Except CalcErr ℚ :=
  if b = 0 then .error .zeroDivisionError else .ok (a / b)

/-- The six single-qubit positions (tom.py lines 401-403). -/
def singlePositions : List String := ["H", "V", "P", "M", "R", "L"]

/-- The 36 two-qubit positions (tom.py lines 231-237). -/
def doublePositions : List String :=
  ["HH","HV","VH","VV","PP","PM","MP","MM",
   "RR","RL","LR","LL","HP","HM","VP","VM",
   "HR","HL","VL","VR","PH","MH","PV","MV",
   "RH","LH","LV","RV","PR","PL","MR","ML",
   "RP","LP","RM","LM"]

/-- The nine measurement-basis groups of DoubleQubit.calc_results
(tom.py lines 286-296). -/
def doubleGroups : List (String × List String) :=
  [("HV", ["HH", "HV", "VH", "VV"]),
   ("PM", ["PP", "PM", "MP", "MM"]),
   ("RL", ["RR", "RL", "LR", "LL"]),
   ("HP", ["HP", "HM", "VP", "VM"]),
   ("HR", ["HR", "HL", "VR", "VL"]),
   ("PH", ["PH", "MH", "PV", "MV"]),
   ("RH", ["RH", "LH", "LV", "RV"]),
   ("PR", ["PR", "PL", "MR", "ML"]),
   ("RP", ["RP", "LP", "RM", "LM"])]

/-- The frequency dictionary construction of DoubleQubit.calc_results
(tom.py lines 314-326): for each group in order, sum the four raw counts;
raise ValueError when the sum is zero, otherwise store
freq[o.lower()] = C(o) / den for the members. -/
def buildFreq (C : String → ℚ) : List (String × List String) → Except CalcErr (List (String × ℚ))
  | [] => .ok []
  | g :: rest =>
    let den := (g.2.map C).sum
    if den = 0 then .error .valueError
    else
      match buildFreq C rest with
      | .error e => .error e
      | .ok tail => .ok ((g.2.map (fun o => (lowerStr o, C o / den))) ++ tail)

/-- The sixteen Stokes parameters of the two-qubit reconstruction. -/
structure DStokes where
  T00 : ℚ
  TZZ : ℚ
  TXX : ℚ
  TYY : ℚ
  TZ0 : ℚ
  T0Z : ℚ
  TX0 : ℚ
  T0X : ℚ
  TY0 : ℚ
  T0Y : ℚ
  TXZ : ℚ
  TZX : ℚ
  TXY : ℚ
  TYX : ℚ
  TZY : ℚ
  TYZ : ℚ
deriving DecidableEq, Repr

/-- The Stokes-parameter computation of DoubleQubit.calc_results
(tom.py lines 328-377), verbatim from the source, reading the
lower-cased frequency table f. -/
def stokesOfFreq (f : String → ℚ) : DStokes :=
  { T00 := 1
    TZZ := f "hh" - f "hv" - f "vh" + f "vv"
    TXX := f "pp" - f "pm" - f "mp" + f "mm"
    TYY := f "rr" - f "rl" - f "lr" + f "ll"
    TZ0 := (1 / 3) *
      ((f "hp" + f "hm" - f "vp" - f "vm") +
       (f "hr" + f "hl" - f "vr" - f "vl") +
       (f "hh" + f "hv" - f "vh" - f "vv"))
    T0Z := (1 / 3) *
      ((f "ph" + f "mh" - f "pv" - f "mv") +
       (f "rh" + f "lh" - f "rv" - f "lv") +
       (f "hh" + f "hv" - f "vh" - f "vv"))
    TX0 := (1 / 3) *
      ((f "pp" + f "pm" - f "mp" - f "mm") +
       (f "pr" + f "pl" - f "mr" - f "ml") +
       (f "ph" + f "pv" - f "mh" - f "mv"))
    T0X := (1 / 3) *
      ((f "pp" + f "pm" - f "mp" - f "mm") +
       (f "rp" + f "lp" - f "rm" - f "lm") +
       (f "hp" + f "vp" - f "hm" - f "vm"))
    TY0 := (1 / 3) *
      ((f "rp" + f "rm" - f "lp" - f "lm") +
       (f "rr" + f "rl" - f "lr" - f "ll") +
       (f "rh" + f "rv" - f "lh" - f "lv"))
    T0Y := (1 / 3) *
      ((f "pr" + f "mr" - f "pl" - f "ml") +
       (f "rr" + f "lr" - f "rl" - f "ll") +
       (f "hr" + f "vr" - f "hl" - f "vl"))
    TXZ := f "hp" - f "hm" - f "vp" + f "vm"
    TZX := f "ph" - f "mh" - f "pv" + f "mv"
    TXY := f "hr" - f "hl" - f "vr" + f "vl"
    TYX := f "rh" - f "lh" - f "rv" + f "lv"
    TZY := f "rh" - f "lh" - f "lv" + f "rv"
    TYZ := f "hr" - f "hl" - f "vl" + f "vr" }

/-- The 4 by 4 density-matrix assembly of DoubleQubit.calc_results
(tom.py lines 379-384), entry by entry from the source, including the
source's literal use of TYX in the entry at row 3, column 1. -/
def rhoOfStokes (t : DStokes) : Mat4 :=
  msmul4 (CQ.oq (1 / 4))
    ![![CQ.oq t.T00 + CQ.oq t.T0Z + CQ.oq t.TZ0 + CQ.oq t.TZZ,
        CQ.oq t.T0X - CQ.ju * CQ.oq t.T0Y - CQ.oq t.TZX - CQ.ju * CQ.oq t.TZY,
        CQ.oq t.TX0 + CQ.oq t.TXZ - CQ.ju * CQ.oq t.TY0 - CQ.ju * CQ.oq t.TYZ,
        CQ.oq t.TXX - CQ.ju * CQ.oq t.TXY - CQ.ju * CQ.oq t.TYX - CQ.oq t.TYY],
      ![CQ.oq t.T0X + CQ.ju * CQ.oq t.T0Y + CQ.oq t.TZX + CQ.ju * CQ.oq t.TZY,
        CQ.oq t.T00 - CQ.oq t.T0Z + CQ.oq t.TZ0 - CQ.oq t.TZZ,
        CQ.oq t.TXX + CQ.ju * CQ.oq t.TXY - CQ.ju * CQ.oq t.TYX + CQ.oq t.TYY,
        CQ.oq t.TX0 - CQ.oq t.TXZ - CQ.ju * CQ.oq t.TY0 + CQ.ju * CQ.oq t.TYZ],
      ![CQ.oq t.TX0 + CQ.oq t.TXZ + CQ.ju * CQ.oq t.TY0 + CQ.ju * CQ.oq t.TYZ,
        CQ.oq t.TXX - CQ.ju * CQ.oq t.TXY + CQ.ju * CQ.oq t.TYX + CQ.oq t.TYY,
        CQ.oq t.T00 + CQ.oq t.T0Z - CQ.oq t.TZ0 - CQ.oq t.TZZ,
        CQ.oq t.T0X - CQ.ju * CQ.oq t.T0Y - CQ.oq t.TZX + CQ.ju * CQ.oq t.TZY],
      ![CQ.oq t.TXX + CQ.ju * CQ.oq t.TXY + CQ.ju * CQ.oq t.TYX - CQ.oq t.TYY,
        CQ.oq t.TX0 - CQ.oq t.TXZ + CQ.ju * CQ.oq t.TY0 - CQ.ju * CQ.oq t.TYX,
        CQ.oq t.T0X + CQ.ju * CQ.oq t.T0Y - CQ.oq t.TZX - CQ.ju * CQ.oq t.TZY,
        CQ.oq t.T00 - CQ.oq t.T0Z - CQ.oq t.TZ0 + CQ.oq t.TZZ]]

/-- Results of DoubleQubit.calc_results (tom.py lines 391-397), with the
intermediate Stokes parameters also exposed. -/
structure DResults where
  stokes : DStokes
  rho : Mat4
  hermiticitySq : ℚ
  trace : CQ
  purity : ℚ

/-- DoubleQubit.calc_results (tom.py lines 285-397): build the C accessor
from the rows, build the normalised frequency table (raising ValueError
on a zero group denominator), compute the Stokes parameters, assemble
rho and the diagnostics. -/
def calcResultsDouble (rows : List Row) : Except CalcErr DResults :=
  let C := Cfun doublePositions rows
  match buildFreq C doubleGroups with
  | .error e => .error e
  | .ok L =>
    let t := stokesOfFreq (pyGet L)
    let rho := rhoOfStokes t
    .ok { stokes := t, rho := rho, hermiticitySq := hermSq4 rho,
          trace := trace4 rho, purity := (trace4 (mmul4 rho rho)).re }

/-- Identity matrix s_0 of SingleQubit.calc_results (tom.py lines
456-459). -/
def s_0 : Mat2 := ![![⟨1, 0⟩, ⟨0, 0⟩], ![⟨0, 0⟩, ⟨1, 0⟩]]

/-- Pauli x matrix s_x of SingleQubit.calc_results (tom.py lines
460-463). -/
def s_x : Mat2 := ![![⟨0, 0⟩, ⟨1, 0⟩], ![⟨1, 0⟩, ⟨0, 0⟩]]

/-- The matrix called s_y in SingleQubit.calc_results (tom.py lines
464-467), verbatim from the source: np.array([[1, -1j], [1j, 1]]).  Note
the diagonal entries are 1, not 0. -/
def s_y : Mat2 := ![![⟨1, 0⟩, ⟨0, -1⟩], ![⟨0, 1⟩, ⟨1, 0⟩]]

/-- Pauli z matrix s_z of SingleQubit.calc_results (tom.py lines
468-471). -/
def s_z : Mat2 := ![![⟨1, 0⟩, ⟨0, 0⟩], ![⟨0, 0⟩, ⟨-1, 0⟩]]

/-- The density-matrix assembly of SingleQubit.calc_results (tom.py line
479): rho = (1/2) * (T0*s_0 + TX*s_x + TY*s_y + TZ*s_z). -/
def rhoSingle (T0 TX TY TZ : ℚ) : Mat2 :=
  msmul2 (CQ.oq (1 / 2))
    (madd2 (madd2 (madd2 (msmul2 (CQ.oq T0) s_0) (msmul2 (CQ.oq TX) s_x))
      (msmul2 (CQ.oq TY) s_y)) (msmul2 (CQ.oq TZ) s_z))

/-- Results of SingleQubit.calc_results (tom.py lines 486-491), with the
intermediate Stokes parameters TX, TY, TZ also exposed. -/
structure SResults where
  TX : ℚ
  TY : ℚ
  TZ : ℚ
  rho : Mat2
  hermiticitySq : ℚ
  trace : CQ
  purity : ℚ

/-- SingleQubit.calc_results (tom.py lines 439-492): build the C accessor
from the rows, compute TX, TY, TZ by float division (raising
ZeroDivisionError when a pair sum is zero), assemble rho and the
diagnostics. -/
def calcResultsSingle (rows : List Row) : Except CalcErr SResults :=
  let C := Cfun singlePositions rows
  let T0 : ℚ := 1
  match qdiv (C "P" - C "M") (C "P" + C "M") with
  | .error e => .error e
  | .ok TX =>
    match qdiv (C "R" - C "L") (C "R" + C "L") with
    | .error e => .error e
    | .ok TY =>
      match qdiv (C "H" - C "V") (C "H" + C "V") with
      | .error e => .error e
      | .ok TZ =>
        let rho := rhoSingle T0 TX TY TZ
        .ok { TX := TX, TY := TY, TZ := TZ, rho := rho,
              hermiticitySq := hermSq2 rho, trace := trace2 rho,
              purity := (trace2 (mmul2 rho rho)).re }

/-!
Concrete inputs used by the claim theorems and witnesses.
-/

/-- Input table of counts for the pure H state:
{H: 1, V: 0, P: 1/2, M: 1/2, R: 1/2, L: 1/2}. -/
def c9table : List Row :=
  [("H", some 1), ("V", some 0), ("P", some (1 / 2)),
   ("M", some (1 / 2)), ("R", some (1 / 2)), ("L", some (1 / 2))]

/-- Input table of counts with an imbalanced R/L pair, giving TY = 1/2:
{H: 1, V: 1, P: 1, M: 1, R: 3, L: 1}. -/
def c2table : List Row :=
  [("H", some 1), ("V", some 1), ("P", some 1),
   ("M", some 1), ("R", some 3), ("L", some 1)]

/-- Stokes assignment with TZX = 1 and every other parameter 0. -/
def stokesTZX : DStokes :=
  ⟨0, 0, 0, 0, 0, 0, 0, 0, 0, 0, 0, 1, 0, 0, 0, 0⟩

/-- Stokes assignment with TYZ = 1 and every other parameter 0. -/
def stokesTYZ : DStokes :=
  ⟨0, 0, 0, 0, 0, 0, 0, 0, 0, 0, 0, 0, 0, 0, 0, 1⟩

/-- A normalised frequency table with f(hl) = 1 in the HR basis group and
f(rh) = 1 in the RH basis group (every other member of those groups 0). -/
def c6freq : String → ℚ := fun k => if k = "hl" then 1 else if k = "rh" then 1 else 0

/-- Single-qubit table in which the P and M rows are missing entirely. -/
def c10table : List Row := [("H", some 1), ("V", some 1)]

/-- Two-qubit table in which every basis except the first is missing. -/
def c10dtable : List Row := [("HH", some 1)]

/-!
Helper lemmas.
-/

@[simp] theorem CQ.mk_add (a b c d : ℚ) : (⟨a, b⟩ : CQ) + ⟨c, d⟩ = ⟨a + c, b + d⟩ := rfl

@[simp] theorem CQ.mk_sub (a b c d : ℚ) : (⟨a, b⟩ : CQ) - ⟨c, d⟩ = ⟨a - c, b - d⟩ := rfl

@[simp] theorem CQ.mk_mul (a b c d : ℚ) :
    (⟨a, b⟩ : CQ) * ⟨c, d⟩ = ⟨a * c - b * d, a * d + b * c⟩ := rfl

@[simp] theorem CQ.zero_def : (0 : CQ) = ⟨0, 0⟩ := rfl

@[simp] theorem CQ.add_zero (z : CQ) : z + 0 = z := by
  cases z with
  | mk a b =>
    show (⟨a + 0, b + 0⟩ : CQ) = ⟨a, b⟩
    norm_num

@[simp] theorem CQ.zero_add (z : CQ) : 0 + z = z := by
  cases z with
  | mk a b =>
    show (⟨0 + a, 0 + b⟩ : CQ) = ⟨a, b⟩
    norm_num

@[simp] theorem CQ.oq_def (x : ℚ) : CQ.oq x = ⟨x, 0⟩ := rfl

@[simp] theorem CQ.ju_def : CQ.ju = ⟨0, 1⟩ := rfl

@[simp] theorem CQ.conj_mk (a b : ℚ) : CQ.conj ⟨a, b⟩ = ⟨a, -b⟩ := rfl

@[simp] theorem CQ.normSq_mk (a b : ℚ) : CQ.normSq ⟨a, b⟩ = a ^ 2 + b ^ 2 := rfl

theorem sum_map_div (l : List String) (f : String → ℚ) (d : ℚ) :
    (l.map fun o => f o / d).sum = (l.map f).sum / d := by
  induction l with
  | nil => simp
  | cons a t ih => simp [ih, add_div]

theorem assocGet_of_mem_of_nodup {L : List (String × ℚ)} {k : String} {v : ℚ}
    (hnd : (L.map Prod.fst).Nodup) (hm : (k, v) ∈ L) : assocGet L k = some v := by
  induction L with
  | nil => simp at hm
  | cons p t ih =>
    rcases List.mem_cons.1 hm with h | h
    · rw [← h, assocGet]
      simp
    · have hk : k ≠ p.1 := by
        intro hkp
        have : k ∈ t.map Prod.fst := List.mem_map.2 ⟨(k, v), h, rfl⟩
        rw [hkp] at this
        exact (List.nodup_cons.1 hnd).1 this
      rw [assocGet, if_neg hk]
      exact ih (List.nodup_cons.1 hnd).2 h

theorem assocGet_eq_none_of_not_mem {L : List (String × ℚ)} {k : String}
    (h : k ∉ L.map Prod.fst) : assocGet L k = none := by
  induction L with
  | nil => rfl
  | cons p t ih =>
    simp only [List.map_cons, List.mem_cons, not_or] at h
    rw [assocGet, if_neg h.1]
    exact ih h.2

theorem pyGet_of_mem_of_nodup {L : List (String × ℚ)} {k : String} {v : ℚ}
    (hnd : (L.map Prod.fst).Nodup) (hm : (k, v) ∈ L) : pyGet L k = v := by
  unfold pyGet
  rw [assocGet_of_mem_of_nodup ?_ (List.mem_reverse.2 hm)]
  · rfl
  · rw [List.map_reverse, List.nodup_reverse]
    exact hnd

theorem buildFreq_ok (C : String → ℚ) (gs : List (String × List String))
    (h : ∀ g ∈ gs, (g.2.map C).sum ≠ 0) :
    buildFreq C gs =
      .ok (gs.flatMap fun g => g.2.map fun o => (lowerStr o, C o / (g.2.map C).sum)) := by
  induction gs with
  | nil => rfl
  | cons g rest ih =>
    have hg : (g.2.map C).sum ≠ 0 := h g (List.mem_cons_self g rest)
    have hr := ih fun g2 hg2 => h g2 (List.mem_cons_of_mem g hg2)
    rw [buildFreq]
    simp only [hg, if_neg, ite_false, hr, List.flatMap_cons]

theorem buildFreq_err (C : String → ℚ) (gs : List (String × List String))
    (h : ∃ g ∈ gs, (g.2.map C).sum = 0) : ∃ e, buildFreq C gs = .error e := by
  induction gs with
  | nil => simp at h
  | cons g rest ih =>
    by_cases hd : (g.2.map C).sum = 0
    · exact ⟨.valueError, by rw [buildFreq]; simp [hd]⟩
    · obtain ⟨g2, hg2, hz⟩ := h
      rcases List.mem_cons.1 hg2 with rfl | hmem
      · exact absurd hz hd
      · obtain ⟨e, he⟩ := ih ⟨g2, hmem, hz⟩
        exact ⟨e, by rw [buildFreq]; simp [hd, he]⟩

/-- Python's round never lands further than half a unit from its
argument. -/
theorem abs_pyRound_sub (q : ℚ) : |(pyRound q : ℚ) - q| ≤ 1 / 2 := by
  unfold pyRound
  split_ifs with h1 h2
  · have hv : (⌊q⌋ : ℚ) - q = -(1 / 2) := by
      have hf := Int.floor_add_fract q
      rw [h1] at hf
      linarith
    rw [hv, abs_neg, abs_of_nonneg (by norm_num : (0 : ℚ) ≤ 1 / 2)]
  · have hv : (⌊q⌋ : ℚ) + 1 - q = 1 / 2 := by
      have hf := Int.floor_add_fract q
      rw [h1] at hf
      linarith
    push_cast
    rw [hv, abs_of_nonneg (by norm_num : (0 : ℚ) ≤ 1 / 2)]
  · rw [abs_sub_comm]
    exact abs_sub_round q

/-- Python's round is weakly monotone. -/
theorem pyRound_mono {a b : ℚ} (hab : a ≤ b) : pyRound a ≤ pyRound b := by
  by_contra hlt
  push_neg at hlt
  have h1 : (pyRound a : ℚ) ≤ a + 1 / 2 := by
    have := abs_pyRound_sub a
    rw [abs_le] at this
    linarith [this.2]
  have h2 : b - 1 / 2 ≤ (pyRound b : ℚ) := by
    have := abs_pyRound_sub b
    rw [abs_le] at this
    linarith [this.1]
  have hc : (pyRound b : ℚ) + 1 ≤ (pyRound a : ℚ) := by
    exact_mod_cast Int.add_one_le_of_lt hlt
  have hba : b ≤ a := by linarith
  have heq : a = b := le_antisymm hab hba
  rw [heq] at hlt
  exact lt_irrefl _ hlt

theorem settle_foldl_not_mem (pos : ℕ → ℕ → ℤ) (t : ℕ) (m : ℕ) :
    ∀ (l : List (ℕ × ℤ)) (d : List ℕ), m ∉ d →
      (∀ q, (m, q) ∈ l → 1 < |pos t m - q|) →
      m ∉ l.foldl
        (fun d2 p =>
          if p.1 ∈ d2 then d2
          else if |pos t p.1 - p.2| ≤ 1 then d2 ++ [p.1] else d2)
        d := by
  intro l
  induction l with
  | nil => intro d hd _; exact hd
  | cons p rest ih =>
    intro d hd hnever
    rw [List.foldl_cons]
    refine ih _ ?_ (fun q hq => hnever q (List.mem_cons_of_mem p hq))
    by_cases hmem : p.1 ∈ d
    · simpa [hmem] using hd
    · by_cases htol : |pos t p.1 - p.2| ≤ 1
      · simp only [hmem, if_false, ite_false, htol, if_true, ite_true, List.mem_append,
          List.mem_singleton]
        rintro (hin | rfl)
        · exact hd hin
        · exact absurd htol (not_le.2 (hnever p.2 (List.mem_cons_self _ _)))
      · simpa [hmem, htol] using hd

theorem settleStep_not_mem (pos : ℕ → ℕ → ℤ) (targets : List (ℕ × ℤ)) (t : ℕ) (m : ℕ)
    (d : List ℕ) (hd : m ∉ d)
    (hnever : ∀ q, (m, q) ∈ targets → 1 < |pos t m - q|) :
    m ∉ settleStep pos targets t d :=
  settle_foldl_not_mem pos t m targets d hd hnever

theorem waitLoop_not_mem (pos : ℕ → ℕ → ℤ) (targets : List (ℕ × ℤ)) (m : ℕ)
    (hnever : ∀ t q, (m, q) ∈ targets → 1 < |pos t m - q|) :
    ∀ (fuel t : ℕ) (d : List ℕ), m ∉ d → m ∉ (waitLoop pos targets fuel t d).2 := by
  intro fuel
  induction fuel with
  | zero => intro t d hd; exact hd
  | succ n ih =>
    intro t d hd
    rw [waitLoop]
    split_ifs with hall
    · exact hd
    · exact ih _ _ (settleStep_not_mem pos targets t m d hd (hnever t))

/-!
Claim theorems.
-/

/-- C1: the claim that every slot read during one acquisition repetition
is cleared before the next repetition begins, and that two consecutive
acquisition repetitions never consume the same underlying published
sample, fails for the single-qubit loop: SingleQubit.measure_position
resets _current_ch2 instead of _current_ch1 (tom.py line 423), so after a
single publish of sample 0 on channel 1 the loop appends sample 0 twice
in two consecutive repetitions.  The two-qubit loop on the analogous
schedule clears its slots and therefore blocks at the second repetition
instead of re-consuming. -/
theorem c1_single_loop_consumes_stale_sample :
    (singleLoop initLatch [[⟨Chan.ch1, 0⟩], []]).map (fun s => s.acc1) = some [0, 0] ∧
    doubleLoop initLatch [[⟨Chan.ch1, 0⟩, ⟨Chan.ch2, 1⟩, ⟨Chan.coinc, 2⟩], []] = none := by
  constructor
  · rfl
  · rfl

/-- C8: the degree-to-step conversion round(angle * DEG_TO_STEP) with
STEPS_PER_REV = 4800 lands within 1 step of the exact device-unit target,
is weakly monotone, and is deterministic. -/
theorem c8_angle_to_steps_accurate :
    (∀ a : ℚ, |(angleToSteps a : ℚ) - a * (STEPS_PER_REV / 360)| ≤ 1) ∧
    (∀ a b : ℚ, a ≤ b → angleToSteps a ≤ angleToSteps b) ∧
    (∀ a b : ℚ, a = b → angleToSteps a = angleToSteps b) := by
  refine ⟨?_, ?_, ?_⟩
  · intro a
    have h := abs_pyRound_sub (a * DEG_TO_STEP)
    rw [angleToSteps, DEG_TO_STEP]
    rw [DEG_TO_STEP] at h
    exact le_trans h (by norm_num)
  · intro a b hab
    apply pyRound_mono
    have hpos : (0 : ℚ) ≤ DEG_TO_STEP := by
      rw [DEG_TO_STEP, STEPS_PER_REV]
      norm_num
    exact mul_le_mul_of_nonneg_right hab hpos
  · intro a b h
    rw [h]

/-- C8 witness: the conversion applied at the concrete angles 3 and 6
degrees. -/
theorem c8_angle_to_steps_accurate_witness :
    angleToSteps 3 ≤ angleToSteps 6 ∧
    |(angleToSteps 3 : ℚ) - 3 * (STEPS_PER_REV / 360)| ≤ 1 :=
  ⟨c8_angle_to_steps_accurate.2.1 3 6 (by norm_num),
   c8_angle_to_steps_accurate.1 3⟩

/-- C7: when some motor's reported position never comes within 1 step of
its target, _move_motors_to_targets still returns normally: the timeout
warning is emitted and a final position is reported for every motor of
the assignment. -/
theorem c7_motor_timeout_warns_and_reports (pos : ℕ → ℕ → ℤ)
    (targets : List (ℕ × ℤ)) (fuel : ℕ) (m : ℕ)
    (hm : m ∈ targets.map Prod.fst)
    (hnever : ∀ t q, (m, q) ∈ targets → 1 < |pos t m - q|) :
    (moveMotors pos targets fuel).warned = true ∧
    (moveMotors pos targets fuel).reports.map Prod.fst = targets.map Prod.fst := by
  constructor
  · rw [moveMotors]
    rw [if_neg]
    intro hall
    obtain ⟨p, hp, hpm⟩ := List.mem_map.1 hm
    have hmem := hall p hp
    rw [hpm] at hmem
    exact waitLoop_not_mem pos targets m hnever fuel 0 [] (by simp) hmem
  · rw [moveMotors]
    simp only [List.map_map]
    exact List.map_congr_left fun p _ => rfl

/-- C7 witness: one motor with target 100 whose reported position is
always 0. -/
theorem c7_motor_timeout_warns_and_reports_witness :
    (moveMotors (fun _ _ => 0) [(1, 100)] 3).warned = true ∧
    (moveMotors (fun _ _ => 0) [(1, 100)] 3).reports.map Prod.fst =
      [((1 : ℕ), (100 : ℤ))].map Prod.fst := by
  refine c7_motor_timeout_warns_and_reports _ _ 3 1 (by simp) ?_
  intro t q hq
  simp only [List.mem_singleton, Prod.mk.injEq, true_and] at hq
  rw [hq]
  norm_num

/-- C3: whenever some measurement-basis group has a zero denominator, the
reconstruction aborts with a raised error before producing a density
matrix: the two-qubit variant raises ValueError at the offending group,
and the single-qubit variant raises ZeroDivisionError at the offending
complementary pair. -/
theorem c3_zero_group_denominator_aborts :
    (∀ rows : List Row,
        (∃ g ∈ doubleGroups, (g.2.map (Cfun doublePositions rows)).sum = 0) →
        ∃ e, calcResultsDouble rows = .error e) ∧
    (∀ rows : List Row,
        (Cfun singlePositions rows "P" + Cfun singlePositions rows "M" = 0 ∨
         Cfun singlePositions rows "R" + Cfun singlePositions rows "L" = 0 ∨
         Cfun singlePositions rows "H" + Cfun singlePositions rows "V" = 0) →
        ∃ e, calcResultsSingle rows = .error e) := by
  constructor
  · intro rows h
    obtain ⟨e, he⟩ := buildFreq_err (Cfun doublePositions rows) doubleGroups h
    exact ⟨e, by simp [calcResultsDouble, he]⟩
  · intro rows h
    by_cases hPM : Cfun singlePositions rows "P" + Cfun singlePositions rows "M" = 0
    · exact ⟨.zeroDivisionError, by simp [calcResultsSingle, qdiv, hPM]⟩
    · by_cases hRL : Cfun singlePositions rows "R" + Cfun singlePositions rows "L" = 0
      · exact ⟨.zeroDivisionError, by simp [calcResultsSingle, qdiv, hPM, hRL]⟩
      · have hHV : Cfun singlePositions rows "H" + Cfun singlePositions rows "V" = 0 := by
          rcases h with h | h | h
          · exact absurd h hPM
          · exact absurd h hRL
          · exact h
        exact ⟨.zeroDivisionError, by simp [calcResultsSingle, qdiv, hPM, hRL, hHV]⟩

/-- C3 witness: the empty table has every group denominator zero, and
both variants abort on it. -/
theorem c3_zero_group_denominator_aborts_witness :
    (∃ e, calcResultsDouble [] = .error e) ∧ (∃ e, calcResultsSingle [] = .error e) := by
  constructor
  · apply c3_zero_group_denominator_aborts.1
    refine ⟨("HV", ["HH", "HV", "VH", "VV"]), by simp [doubleGroups], ?_⟩
    show ((["HH", "HV", "VH", "VV"] : List String).map (Cfun doublePositions [])).sum = 0
    norm_num [Cfun, pyGet, posToCoinc, assocGet]
  · apply c3_zero_group_denominator_aborts.2
    exact Or.inl (by norm_num [Cfun, pyGet, posToCoinc, assocGet])

/-- C4: for any table of raw counts that is nonnegative on the 36
settings and has a positive sum on each of the nine basis groups, the
frequency table is built without error and the four member frequencies of
every group sum to 1 within tolerance 1e-9 (in exact arithmetic the sum
is exactly 1). -/
theorem c4_group_frequencies_sum_to_one (C : String → ℚ)
    (hnn : ∀ s ∈ doublePositions, 0 ≤ C s)
    (hpos : ∀ g ∈ doubleGroups, 0 < (g.2.map C).sum) :
    ∃ L, buildFreq C doubleGroups = .ok L ∧
      ∀ g ∈ doubleGroups,
        |(g.2.map fun o => pyGet L (lowerStr o)).sum - 1| ≤ 1 / 1000000000 := by
  have hne : ∀ g ∈ doubleGroups, (g.2.map C).sum ≠ 0 := fun g hg => (hpos g hg).ne'
  refine ⟨_, buildFreq_ok C doubleGroups hne, ?_⟩
  intro g hg
  have hkeys :
      ((doubleGroups.flatMap fun g2 =>
          g2.2.map fun o => (lowerStr o, C o / (g2.2.map C).sum)).map Prod.fst)
        = doubleGroups.flatMap fun g2 => g2.2.map lowerStr := by
    rw [List.map_flatMap]
    rfl
  have hnd :
      ((doubleGroups.flatMap fun g2 =>
          g2.2.map fun o => (lowerStr o, C o / (g2.2.map C).sum)).map Prod.fst).Nodup := by
    rw [hkeys]
    decide
  have hval : ∀ o ∈ g.2,
      pyGet (doubleGroups.flatMap fun g2 =>
          g2.2.map fun o2 => (lowerStr o2, C o2 / (g2.2.map C).sum)) (lowerStr o)
        = C o / (g.2.map C).sum := by
    intro o ho
    apply pyGet_of_mem_of_nodup hnd
    exact List.mem_flatMap.2 ⟨g, hg, List.mem_map.2 ⟨o, ho, rfl⟩⟩
  rw [List.map_congr_left hval, sum_map_div, div_self (hne g hg)]
  norm_num

/-- C4 witness: the constant table with every raw count 1. -/
theorem c4_group_frequencies_sum_to_one_witness :
    ∃ L, buildFreq (fun _ => 1) doubleGroups = .ok L ∧
      ∀ g ∈ doubleGroups,
        |(g.2.map fun o => pyGet L (lowerStr o)).sum - 1| ≤ 1 / 1000000000 := by
  apply c4_group_frequencies_sum_to_one
  · intro s _
    norm_num
  · intro g hg
    fin_cases hg <;> norm_num

/-- C10: a setting that is absent from the data rows, or whose value
cell does not parse as a float, is silently treated as the count 0.0;
in particular a missing complementary pair or basis is not reported as a
missing-data error but surfaces later as the zero-denominator abort. -/
theorem c10_missing_data_defaults_to_zero :
    (∀ (rows : List Row) (s : String),
        s ∉ (posToCoinc singlePositions rows).map Prod.fst →
        Cfun singlePositions rows s = 0) ∧
    (∀ s ∈ singlePositions, Cfun singlePositions [(s, Option.none)] s = 0) ∧
    calcResultsSingle c10table = .error CalcErr.zeroDivisionError ∧
    (∃ e, calcResultsDouble c10dtable = .error e) := by
  refine ⟨?_, ?_, ?_, ?_⟩
  · intro rows s hs
    unfold Cfun pyGet
    rw [assocGet_eq_none_of_not_mem]
    · rfl
    · rw [List.map_reverse]
      intro hmem
      exact hs (List.mem_reverse.1 hmem)
  · intro s hs
    fin_cases hs <;> rfl
  · have hP : Cfun singlePositions c10table "P" = 0 := rfl
    have hM : Cfun singlePositions c10table "M" = 0 := rfl
    simp [calcResultsSingle, qdiv, hP, hM]
  · apply c3_zero_group_denominator_aborts.1
    refine ⟨("PM", ["PP", "PM", "MP", "MM"]), by simp [doubleGroups], ?_⟩
    show ((["PP", "PM", "MP", "MM"] : List String).map (Cfun doublePositions c10dtable)).sum = 0
    have h : (["PP", "PM", "MP", "MM"] : List String).map (Cfun doublePositions c10dtable)
        = [0, 0, 0, 0] := rfl
    rw [h]
    norm_num

/-- C10 witness: the fallback applied at a concrete missing setting and
at a concrete unparseable cell. -/
theorem c10_missing_data_defaults_to_zero_witness :
    Cfun singlePositions [] "P" = 0 ∧ Cfun singlePositions [("H", Option.none)] "H" = 0 :=
  ⟨c10_missing_data_defaults_to_zero.1 [] "P" (by simp [posToCoinc]),
   c10_missing_data_defaults_to_zero.2.1 "H" (by simp [singlePositions])⟩

/-- C6: the claim that TZY is computed from the HR basis as
f(HR) - f(HL) - f(VR) + f(VL) and TYZ from the RH basis as
f(RH) - f(RV) - f(LH) + f(LV) fails on the code: tom.py lines 376-377
compute TZY from the RH-basis frequencies and TYZ from the HR-basis
frequencies (with marginal sign patterns).  On the frequency table
c6freq the code yields TZY = 1 while the claimed formula yields -1, and
TYZ = -1 while the claimed formula yields 1. -/
theorem c6_cross_stokes_swapped :
    (stokesOfFreq c6freq).TZY = 1 ∧
    c6freq "hr" - c6freq "hl" - c6freq "vr" + c6freq "vl" = -1 ∧
    (stokesOfFreq c6freq).TYZ = -1 ∧
    c6freq "rh" - c6freq "rv" - c6freq "lh" + c6freq "lv" = 1 := by
  have hrh : c6freq "rh" = 1 := rfl
  have hlh : c6freq "lh" = 0 := rfl
  have hlv : c6freq "lv" = 0 := rfl
  have hrv : c6freq "rv" = 0 := rfl
  have hhr : c6freq "hr" = 0 := rfl
  have hhl : c6freq "hl" = 1 := rfl
  have hvr : c6freq "vr" = 0 := rfl
  have hvl : c6freq "vl" = 0 := rfl
  refine ⟨?_, ?_, ?_, ?_⟩
  · show c6freq "rh" - c6freq "lh" - c6freq "lv" + c6freq "rv" = 1
    rw [hrh, hlh, hlv, hrv]
    norm_num
  · rw [hhr, hhl, hvr, hvl]
    norm_num
  · show c6freq "hr" - c6freq "hl" - c6freq "vl" + c6freq "vr" = -1
    rw [hhr, hhl, hvl, hvr]
    norm_num
  · rw [hrh, hrv, hlh, hlv]
    norm_num

/-- C5: the claim that the assembled 4 by 4 matrix equals the
Pauli-basis expansion and is exactly Hermitian for every real Stokes
input fails on the code: tom.py line 380 has -TZX in the entry at row 0,
column 1 where conjugate symmetry with the entry at row 1, column 0
requires +TZX, and line 383 uses TYX in the entry at row 3, column 1
where the entry at row 1, column 3 requires TYZ.  With TZX = 1 (rest 0)
and with TYZ = 1 (rest 0) the assembled matrix is not Hermitian. -/
theorem c5_rho_assembly_not_hermitian :
    rhoOfStokes stokesTZX 0 1 ≠ CQ.conj (rhoOfStokes stokesTZX 1 0) ∧
    rhoOfStokes stokesTYZ 1 3 ≠ CQ.conj (rhoOfStokes stokesTYZ 3 1) := by
  constructor
  · have h1 : rhoOfStokes stokesTZX 0 1 = ⟨-(1 / 4), 0⟩ := by
      norm_num [rhoOfStokes, stokesTZX, msmul4, Matrix.cons_val_two, Matrix.cons_val_three,
        Matrix.vecHead, Matrix.vecTail]
    have h2 : rhoOfStokes stokesTZX 1 0 = ⟨1 / 4, 0⟩ := by
      norm_num [rhoOfStokes, stokesTZX, msmul4, Matrix.cons_val_two, Matrix.cons_val_three,
        Matrix.vecHead, Matrix.vecTail]
    rw [h1, h2]
    simp only [CQ.conj_mk, ne_eq, CQ.mk.injEq, not_and]
    intro h
    norm_num at h
  · have h1 : rhoOfStokes stokesTYZ 1 3 = ⟨0, 1 / 4⟩ := by
      norm_num [rhoOfStokes, stokesTYZ, msmul4, Matrix.cons_val_two, Matrix.cons_val_three,
        Matrix.vecHead, Matrix.vecTail]
    have h2 : rhoOfStokes stokesTYZ 3 1 = ⟨0, 0⟩ := by
      norm_num [rhoOfStokes, stokesTYZ, msmul4, Matrix.cons_val_two, Matrix.cons_val_three,
        Matrix.vecHead, Matrix.vecTail]
    rw [h1, h2]
    simp only [CQ.conj_mk, ne_eq, CQ.mk.injEq, not_and]
    intro h
    norm_num

/-- C9: on the pure-H input table {H: 1, V: 0, P: 1/2, M: 1/2, R: 1/2,
L: 1/2} the single-qubit reconstruction returns TZ = 1, TX = 0, TY = 0,
purity 1, hermiticity defect 0 and trace 1. -/
theorem c9_pure_h_reconstruction :
    ∃ r, calcResultsSingle c9table = .ok r ∧
      r.TX = 0 ∧ r.TY = 0 ∧ r.TZ = 1 ∧ r.purity = 1 ∧
      r.hermiticitySq = 0 ∧ r.trace = ⟨1, 0⟩ := by
  have hH : Cfun singlePositions c9table "H" = 1 := rfl
  have hV : Cfun singlePositions c9table "V" = 0 := rfl
  have hP : Cfun singlePositions c9table "P" = 1 / 2 := rfl
  have hM : Cfun singlePositions c9table "M" = 1 / 2 := rfl
  have hR : Cfun singlePositions c9table "R" = 1 / 2 := rfl
  have hL : Cfun singlePositions c9table "L" = 1 / 2 := rfl
  have h1 : qdiv (Cfun singlePositions c9table "P" - Cfun singlePositions c9table "M")
      (Cfun singlePositions c9table "P" + Cfun singlePositions c9table "M") = .ok 0 := by
    rw [hP, hM]
    norm_num [qdiv]
  have h2 : qdiv (Cfun singlePositions c9table "R" - Cfun singlePositions c9table "L")
      (Cfun singlePositions c9table "R" + Cfun singlePositions c9table "L") = .ok 0 := by
    rw [hR, hL]
    norm_num [qdiv]
  have h3 : qdiv (Cfun singlePositions c9table "H" - Cfun singlePositions c9table "V")
      (Cfun singlePositions c9table "H" + Cfun singlePositions c9table "V") = .ok 1 := by
    rw [hH, hV]
    norm_num [qdiv]
  have hrho : rhoSingle 1 0 0 1 = ![![⟨1, 0⟩, ⟨0, 0⟩], ![⟨0, 0⟩, ⟨0, 0⟩]] := by
    funext i j
    fin_cases i <;> fin_cases j <;>
      norm_num [rhoSingle, msmul2, madd2, s_0, s_x, s_y, s_z]
  have hres : calcResultsSingle c9table =
      .ok { TX := 0, TY := 0, TZ := 1, rho := rhoSingle 1 0 0 1,
            hermiticitySq := hermSq2 (rhoSingle 1 0 0 1),
            trace := trace2 (rhoSingle 1 0 0 1),
            purity := (trace2 (mmul2 (rhoSingle 1 0 0 1) (rhoSingle 1 0 0 1))).re } := by
    rw [calcResultsSingle]
    simp only [h1, h2, h3]
  refine ⟨_, hres, rfl, rfl, rfl, ?_, ?_, ?_⟩
  · show (trace2 (mmul2 (rhoSingle 1 0 0 1) (rhoSingle 1 0 0 1))).re = 1
    rw [hrho]
    norm_num [mmul2, trace2, List.finRange]
  · show hermSq2 (rhoSingle 1 0 0 1) = 0
    rw [hrho]
    norm_num [hermSq2, List.finRange, CQ.conj, CQ.normSq]
  · show trace2 (rhoSingle 1 0 0 1) = ⟨1, 0⟩
    rw [hrho]
    norm_num [trace2]

/-- C2: the claim that the single-qubit reconstruction assembles
rho = (1/2)(I + TX sx + TY sy + TZ sz) with the standard Pauli matrix
sy = [[0, -i], [i, 0]] fails on the code: tom.py lines 464-467 define
s_y with diagonal entries 1 instead of 0.  On the input table
{H: 1, V: 1, P: 1, M: 1, R: 3, L: 1} (TY = 1/2) the code produces
rho[0][0] = 3/4 and trace 3/2, where the claimed formula gives
rho[0][0] = 1/2 and trace 1.  The Stokes ratios TX, TY, TZ themselves
match the claimed quotient formulas. -/
theorem c2_code_sy_gives_wrong_rho :
    ∃ r, calcResultsSingle c2table = .ok r ∧
      r.TX = 0 ∧ r.TY = 1 / 2 ∧ r.TZ = 0 ∧
      r.rho 0 0 = ⟨3 / 4, 0⟩ ∧ r.trace = ⟨3 / 2, 0⟩ := by
  have hH : Cfun singlePositions c2table "H" = 1 := rfl
  have hV : Cfun singlePositions c2table "V" = 1 := rfl
  have hP : Cfun singlePositions c2table "P" = 1 := rfl
  have hM : Cfun singlePositions c2table "M" = 1 := rfl
  have hR : Cfun singlePositions c2table "R" = 3 := rfl
  have hL : Cfun singlePositions c2table "L" = 1 := rfl
  have h1 : qdiv (Cfun singlePositions c2table "P" - Cfun singlePositions c2table "M")
      (Cfun singlePositions c2table "P" + Cfun singlePositions c2table "M") = .ok 0 := by
    rw [hP, hM]
    norm_num [qdiv]
  have h2 : qdiv (Cfun singlePositions c2table "R" - Cfun singlePositions c2table "L")
      (Cfun singlePositions c2table "R" + Cfun singlePositions c2table "L") = .ok (1 / 2) := by
    rw [hR, hL]
    norm_num [qdiv]
  have h3 : qdiv (Cfun singlePositions c2table "H" - Cfun singlePositions c2table "V")
      (Cfun singlePositions c2table "H" + Cfun singlePositions c2table "V") = .ok 0 := by
    rw [hH, hV]
    norm_num [qdiv]
  have hres : calcResultsSingle c2table =
      .ok { TX := 0, TY := 1 / 2, TZ := 0, rho := rhoSingle 1 0 (1 / 2) 0,
            hermiticitySq := hermSq2 (rhoSingle 1 0 (1 / 2) 0),
            trace := trace2 (rhoSingle 1 0 (1 / 2) 0),
            purity := (trace2 (mmul2 (rhoSingle 1 0 (1 / 2) 0) (rhoSingle 1 0 (1 / 2) 0))).re } := by
    rw [calcResultsSingle]
    simp only [h1, h2, h3]
  have hrho : rhoSingle 1 0 (1 / 2) 0 =
      ![![⟨3 / 4, 0⟩, ⟨0, -(1 / 4)⟩], ![⟨0, 1 / 4⟩, ⟨3 / 4, 0⟩]] := by
    funext i j
    fin_cases i <;> fin_cases j <;>
      norm_num [rhoSingle, msmul2, madd2, s_0, s_x, s_y, s_z]
  refine ⟨_, hres, rfl, rfl, rfl, ?_, ?_⟩
  · show rhoSingle 1 0 (1 / 2) 0 0 0 = ⟨3 / 4, 0⟩
    rw [hrho]
    norm_num
  · show trace2 (rhoSingle 1 0 (1 / 2) 0) = ⟨3 / 2, 0⟩
    rw [hrho]
    norm_num [trace2]
